import Mathlib

/-!
Report-portal client (`rp`): endpoint normalisation and connectivity check.

A shallow embedding of `src/rp/client.go` together with the launch lifecycle
that `src/rp/launch_test.go` exercises.

* A Go `string` is modelled as the list of its characters (`GoString`).  Every
  pattern the code matches on (`"/"`, `"https://"`, `"http://"`, `"/api/v"`) is
  plain ASCII, so the element type plays no role beyond decidable equality.
* Go's `int` is modelled as `Int`; `NewClient` only compares and prints it.
* `strings.Builder` is modelled by explicit state passing.
* The standard-library helpers are embedded by their documented behaviour.
-/

namespace rp

/-- A Go string, as the sequence of its characters. -/
abbrev GoString := List Char

namespace strings

/-- Go `strings.HasPrefix`: `len(s) >= len(p) && s[:len(p)] == p`. -/
def HasPrefix (s p : GoString) : Bool :=
  decide (p.length ≤ s.length) && (s.take p.length == p)

/-- Go `strings.HasSuffix`: `len(s) >= len(x) && s[len(s)-len(x):] == x`. -/
def HasSuffix (s x : GoString) : Bool :=
  decide (x.length ≤ s.length) && (s.drop (s.length - x.length) == x)

/-- Go `strings.TrimSuffix`: drops the suffix once when it is present. -/
def TrimSuffix (s x : GoString) : GoString :=
  if HasSuffix s x then s.take (s.length - x.length) else s

/-- Left-to-right search behind `strings.Index`; `i` is the offset already
consumed.  Returns the first index at which `sub` occurs, `-1` when none. -/
def indexFrom (sub : GoString) : GoString → Nat → Int
  | [], i => if HasPrefix [] sub then (i : Int) else -1
  | c :: cs, i => if HasPrefix (c :: cs) sub then (i : Int) else indexFrom sub cs (i + 1)

/-- Go `strings.Index`. -/
def Index (s sub : GoString) : Int := indexFrom sub s 0

/-- Go `strings.Contains`: `Index(s, sub) >= 0`. -/
def Contains (s sub : GoString) : Bool := decide (0 ≤ Index s sub)

/-- Go `strings.Builder`: an append-only buffer. -/
structure Builder where
  buf : GoString
deriving DecidableEq

/-- The zero value of a `strings.Builder`. -/
def Builder.zero : Builder := ⟨[]⟩

/-- Go `(*Builder).WriteString`. -/
def Builder.WriteString (b : Builder) (s : GoString) : Builder := ⟨b.buf ++ s⟩

/-- Go `(*Builder).String`. -/
def Builder.String (b : Builder) : GoString := b.buf

end strings

namespace strconv

/-- Decimal digits of a natural number, most significant first; `fuel` bounds
the number of digits produced. -/
def formatNat : Nat → Nat → GoString
  | 0, _ => []
  | fuel + 1, n =>
    if n < 10 then [Char.ofNat (48 + n)]
    else formatNat fuel (n / 10) ++ [Char.ofNat (48 + n % 10)]

/-- Go `strconv.Itoa`: the decimal form, with a leading `-` for negatives. -/
def Itoa (i : Int) : GoString :=
  if i < 0 then '-' :: formatNat (i.natAbs + 1) i.natAbs
  else formatNat (i.toNat + 1) i.toNat

end strconv

/-- The `Client` struct of `client.go`. -/
structure Client where
  Endpoint : GoString
  Token : GoString
  Project : GoString
deriving DecidableEq

/-- The literal `"/"`. -/
def slash : GoString := "/".toList
/-- The literal `"https://"`. -/
def httpsScheme : GoString := "https://".toList
/-- The literal `"http://"`. -/
def httpScheme : GoString := "http://".toList
/-- The literal `"/api/v"`. -/
def apiV : GoString := "/api/v".toList

/-- `NewClient` of `client.go`, statement by statement. -/
def NewClient (endpoint project token : GoString) (apiVersion : Int) : Client :=
  let endpoint := strings.TrimSuffix endpoint slash
  let esb := strings.Builder.zero
  let esb :=
    if !strings.HasPrefix endpoint httpsScheme && !strings.HasPrefix endpoint httpScheme then
      esb.WriteString httpsScheme
    else esb
  let esb := esb.WriteString endpoint
  let apiVersion := if apiVersion < 1 then 1 else apiVersion
  let esb :=
    if !strings.Contains endpoint apiV then
      (esb.WriteString apiV).WriteString (strconv.Itoa apiVersion)
    else esb
  { Endpoint := esb.String, Project := project, Token := token }

/-- The literal `"//"`. -/
def slashSlash : GoString := "//".toList

/-- The literal `"api/v"`: `"/api/v"` without its leading slash. -/
def apiVTail : GoString := "api/v".toList

/-- The literal `"/api/v1"`. -/
def apiV1 : GoString := "/api/v1".toList

/-- The endpoint as section 4.1 of the specification words it: strip one
trailing slash, put `https://` in front when no scheme is present, and append
`/api/v<N>` with `N = max(apiVersion, 1)` in decimal when no version segment is
present. -/
def specEndpoint (e : GoString) (apiVersion : Int) : GoString :=
  let t := if slash <:+ e then e.dropLast else e
  let P := if httpsScheme <+: t ∨ httpScheme <+: t then [] else httpsScheme
  let S := if apiV <:+: t then [] else apiV ++ Nat.toDigits 10 (max apiVersion 1).toNat
  P ++ t ++ S

/-- Number of positions of a string at which `sub` occurs. -/
def countOccurrences (sub : GoString) : GoString → Nat
  | [] => if strings.HasPrefix [] sub then 1 else 0
  | c :: cs => (if strings.HasPrefix (c :: cs) sub then 1 else 0) + countOccurrences sub cs

/-- Error values as `github.com/pkg/errors` builds them: a leaf message
(`errors.Errorf`, or an error handed up by a callee) or a cause wrapped with a
context message (`errors.Wrapf`). -/
inductive GoError where
  | errorf (msg : GoString)
  | wrapf (cause : GoError) (msg : GoString)
deriving DecidableEq

/-- The `Error()` text: `errors.Wrapf` prints its context, `": "`, then the
text of the cause. -/
def GoError.Error : GoError → GoString
  | .errorf msg => msg
  | .wrapf cause msg => msg ++ ": ".toList ++ cause.Error

/-- The innermost error of a chain of wraps (`errors.Cause`). -/
def GoError.Cause : GoError → GoError
  | .errorf msg => .errorf msg
  | .wrapf cause _ => cause.Cause

/-- A JSON value of the shapes the wire format uses. -/
inductive JsonValue where
  | str (s : GoString)
  | num (n : Int)
  | strs (xs : List GoString)
deriving DecidableEq

/-- A JSON object: its fields in order. -/
abbrev JsonObject := List (GoString × JsonValue)

/-- The value of field `key` of a JSON object, when present. -/
def JsonObject.field (o : JsonObject) (key : GoString) : Option JsonValue :=
  (o.find? (fun kv => kv.1 == key)).map Prod.snd

namespace http

/-- The parts of `http.Response` the client reads: the status line text
(`"200 OK"`), the status code, and the JSON object its body holds, if any. -/
structure Response where
  Status : GoString
  StatusCode : Int
  Body : Option JsonObject
deriving DecidableEq

/-- The parts of `http.Request` the client sets. `URL` is the parsed URL in
its printed form. -/
structure Request where
  Method : GoString
  URL : GoString
  Header : List (GoString × GoString)
  Body : Option JsonObject
deriving DecidableEq

/-- `http.StatusOK`. -/
def StatusOK : Int := 200
/-- `http.StatusCreated`. -/
def StatusCreated : Int := 201
/-- `http.MethodGet`. -/
def MethodGet : GoString := "GET".toList
/-- `http.MethodPost`. -/
def MethodPost : GoString := "POST".toList
/-- `http.MethodPut`. -/
def MethodPut : GoString := "PUT".toList
/-- `http.MethodDelete`. -/
def MethodDelete : GoString := "DELETE".toList

end http

/-- What lies outside the package: URL parsing inside `http.NewRequest`
(the printed form of the parsed URL, or the parse error) and the transport
helper `doRequest`, which returns Go's pair of a response pointer and an
error, either of which may be nil. -/
structure Transport where
  parseURL : GoString → Except GoError GoString
  doRequest : http.Request → GoString → Option http.Response × Option GoError

/-- Go `http.NewRequest` for the fixed, valid methods the client uses: it
fails exactly when the URL does not parse. -/
def http.NewRequest (T : Transport) (method url : GoString) (body : Option JsonObject) :
    Except GoError http.Request :=
  match T.parseURL url with
  | .error err => .error err
  | .ok u => .ok { Method := method, URL := u, Header := [], Body := body }

/-- How a call ends: it returns a value, or the runtime stops it with a nil
pointer dereference. -/
inductive Outcome (α : Type) where
  | returned (a : α)
  | nilDereference
deriving DecidableEq

/-- `(*Client).CheckConnect` of `client.go`, statement by statement.  The
`defer resp.Body.Close()` statement evaluates `resp.Body` where it stands,
before `err` is looked at, so a nil `resp` stops the call there; the deferred
`Close` itself does not change the returned error. -/
def Client.CheckConnect (T : Transport) (c : Client) : Outcome (Option GoError) :=
  let url := c.Endpoint ++ "/user".toList
  match http.NewRequest T http.MethodGet url none with
  | .error err =>
    .returned (some (.wrapf err ("can't create a new request for ".toList ++ url)))
  | .ok req =>
    match T.doRequest req c.Token with
    | (none, _) => .nilDereference
    | (some _, some err) =>
      .returned (some (.wrapf err ("failed to execute GET request ".toList ++ req.URL)))
    | (some resp, none) =>
      if resp.StatusCode ≠ http.StatusOK then
        .returned (some (.errorf ("failed with status ".toList ++ resp.Status)))
      else .returned none

/-- Modelled from the spec: the `Launch` value of section 3; `launch.go` is not
among the sources, only its tests are. -/
structure Launch where
  Id : GoString
  Name : GoString
  Description : GoString
  Mode : GoString
  Tags : List GoString
  StartTime : Int
  client : Client
deriving DecidableEq

/-- Modelled from the spec: the five lifecycle operations of section 4.2 with
their arguments; `launch.go` is not among the sources. -/
inductive LaunchOp where
  | Start
  | Update (description mode : GoString) (tags : List GoString)
  | Stop (status : GoString)
  | Finish (status : GoString)
  | Delete
deriving DecidableEq

/-- Modelled from the spec: the method column of the table in section 4.2,
which `launch.go` (not among the sources) implements. -/
def LaunchOp.method : LaunchOp → GoString
  | .Start => http.MethodPost
  | .Update _ _ _ => http.MethodPut
  | .Stop _ => http.MethodPut
  | .Finish _ => http.MethodPut
  | .Delete => http.MethodDelete

/-- Modelled from the spec: the path column of the table in section 4.2,
which `launch.go` (not among the sources) implements. -/
def LaunchOp.path (l : Launch) : LaunchOp → GoString
  | .Start => "/".toList ++ l.client.Project ++ "/launch".toList
  | .Update _ _ _ =>
    "/".toList ++ l.client.Project ++ "/launch/".toList ++ l.Id ++ "/update".toList
  | .Stop _ => "/".toList ++ l.client.Project ++ "/launch/".toList ++ l.Id ++ "/stop".toList
  | .Finish _ => "/".toList ++ l.client.Project ++ "/launch/".toList ++ l.Id ++ "/finish".toList
  | .Delete => "/".toList ++ l.client.Project ++ "/launch/".toList ++ l.Id

/-- Modelled from the spec: the body column of the table in section 4.2,
which `launch.go` (not among the sources) implements.  `now` is the current
time in epoch milliseconds; `Update` sends only the fields provided. -/
def LaunchOp.body (l : Launch) (now : Int) : LaunchOp → Option JsonObject
  | .Start =>
    some [("name".toList, .str l.Name), ("description".toList, .str l.Description),
      ("startTime".toList, .num now), ("mode".toList, .str l.Mode),
      ("tags".toList, .strs l.Tags)]
  | .Update description mode tags =>
    some ((if description = [] then [] else [("description".toList, JsonValue.str description)])
      ++ (if mode = [] then [] else [("mode".toList, JsonValue.str mode)])
      ++ (if tags = [] then [] else [("tags".toList, JsonValue.strs tags)]))
  | .Stop status => some [("status".toList, .str status), ("end_time".toList, .num now)]
  | .Finish status => some [("status".toList, .str status), ("end_time".toList, .num now)]
  | .Delete => none

/-- Modelled from the spec: the single accepted status code of each operation
(sections 4.2 and 6), which `launch.go` (not among the sources) checks. -/
def LaunchOp.accepted : LaunchOp → Int
  | .Start => http.StatusCreated
  | _ => http.StatusOK

/-- Modelled from the spec: the local effect column of the table in section
4.2, which `launch.go` (not among the sources) implements: only `Start` reads
the response body, taking the string field `id` as the new `Id`, and records
the start time. -/
def LaunchOp.effect (l : Launch) (now : Int) (resp : http.Response) : LaunchOp → Launch
  | .Start =>
    match resp.Body.bind (fun o => o.field "id".toList) with
    | some (.str x) => { l with Id := x, StartTime := now }
    | _ => { l with StartTime := now }
  | _ => l

/-- Modelled from the spec: the one algorithm every lifecycle operation of
`launch.go` (not among the sources) follows, section 4.2: build the request
with its `Content-Type: application/json` header, execute it through the
transport helper, fail with a wrapped error on a transport failure, compare
the status code with the single accepted one, and apply the local effect on
success.  A failure leaves the launch as it was. -/
def Launch.run (T : Transport) (now : Int) (op : LaunchOp) (l : Launch) :
    Outcome (Launch × Option GoError) :=
  let url := l.client.Endpoint ++ op.path l
  match http.NewRequest T op.method url (op.body l now) with
  | .error err =>
    .returned (l, some (.wrapf err ("can't create a new request for ".toList ++ url)))
  | .ok req =>
    let req := { req with Header := [("Content-Type".toList, "application/json".toList)] }
    match T.doRequest req l.client.Token with
    | (_, some err) =>
      .returned (l, some (.wrapf err
        ("failed to execute ".toList ++ op.method ++ " request ".toList ++ req.URL)))
    | (none, none) => .nilDereference
    | (some resp, none) =>
      if resp.StatusCode ≠ op.accepted then
        .returned (l, some (.errorf ("failed with status ".toList ++ resp.Status)))
      else .returned (op.effect l now resp, none)

/-- A transport whose server answers every request with `resp`. -/
def Transport.answering (resp : http.Response) : Transport where
  parseURL := fun u => .ok u
  doRequest := fun _ _ => (some resp, none)

/-- A transport that cannot reach its server: `doRequest` hands back a nil
response together with the error, as `(*http.Client).Do` does. -/
def Transport.unreachable (err : GoError) : Transport where
  parseURL := fun u => .ok u
  doRequest := fun _ _ => (none, some err)

/-- The server of `TestStartLaunch/Correctly created`, listening at `base`:
a JSON `POST` to `/test_project/launch` is answered with `201` and the body
`{"id": "testid"}`, anything else with `404`. -/
def Transport.startServer (base : GoString) : Transport where
  parseURL := fun u => .ok u
  doRequest := fun req _ =>
    if req.Method = http.MethodPost ∧ req.URL = base ++ "/test_project/launch".toList ∧
        ("Content-Type".toList, "application/json".toList) ∈ req.Header then
      (some { Status := "201 Created".toList, StatusCode := 201,
              Body := some [("id".toList, .str "testid".toList)] }, none)
    else (some { Status := "404 Not Found".toList, StatusCode := 404, Body := none }, none)

/-- A launch with no metadata, bound to `c`. -/
def Launch.blank (c : Client) : Launch :=
  { Id := [], Name := [], Description := [], Mode := [], Tags := [], StartTime := 0, client := c }

/-! Theorems: bridges to list predicates, facts about `NewClient`, then the claims. -/

namespace strings

theorem hasPrefix_iff (s p : GoString) : HasPrefix s p = true ↔ p <+: s := by
  unfold HasPrefix
  simp only [Bool.and_eq_true, decide_eq_true_eq, beq_iff_eq]
  constructor
  · rintro ⟨_, h⟩
    exact List.prefix_iff_eq_take.mpr h.symm
  · intro h
    exact ⟨h.length_le, (List.prefix_iff_eq_take.mp h).symm⟩

theorem hasSuffix_iff (s x : GoString) : HasSuffix s x = true ↔ x <:+ s := by
  unfold HasSuffix
  simp only [Bool.and_eq_true, decide_eq_true_eq, beq_iff_eq]
  constructor
  · rintro ⟨_, h⟩
    exact List.suffix_iff_eq_drop.mpr h.symm
  · intro h
    exact ⟨h.length_le, (List.suffix_iff_eq_drop.mp h).symm⟩

theorem indexFrom_nonneg_iff (sub s : GoString) (i : Nat) :
    0 ≤ indexFrom sub s i ↔ sub <:+: s := by
  induction s generalizing i with
  | nil =>
    unfold indexFrom
    by_cases h : HasPrefix [] sub = true
    · have hp := (hasPrefix_iff _ _).mp h
      simp [h, hp.isInfix]
    · have hn : ¬ sub <+: [] := fun hp => h ((hasPrefix_iff _ _).mpr hp)
      simp only [h]
      simp only [List.prefix_nil] at hn
      simp [hn]
  | cons c cs ih =>
    unfold indexFrom
    by_cases h : HasPrefix (c :: cs) sub = true
    · have hp := (hasPrefix_iff _ _).mp h
      simp [h, hp.isInfix]
    · have hn : ¬ sub <+: c :: cs := fun hp => h ((hasPrefix_iff _ _).mpr hp)
      simp only [h, if_false, Bool.false_eq_true]
      rw [ih, List.infix_cons_iff]
      tauto

theorem contains_iff (s sub : GoString) : Contains s sub = true ↔ sub <:+: s := by
  unfold Contains Index
  rw [decide_eq_true_eq]
  exact indexFrom_nonneg_iff sub s 0

theorem contains_eq_false_iff (s sub : GoString) : Contains s sub = false ↔ ¬ sub <:+: s := by
  rw [← contains_iff, Bool.not_eq_true]

theorem hasPrefix_eq_false_iff (s p : GoString) : HasPrefix s p = false ↔ ¬ p <+: s := by
  rw [← hasPrefix_iff, Bool.not_eq_true]

theorem hasSuffix_eq_false_iff (s x : GoString) : HasSuffix s x = false ↔ ¬ x <:+ s := by
  rw [← hasSuffix_iff, Bool.not_eq_true]

/-- The two ways `TrimSuffix` can go. -/
theorem trimSuffix_cases (s x : GoString) :
    (s = TrimSuffix s x ++ x ∧ x <:+ s) ∨ (TrimSuffix s x = s ∧ ¬ x <:+ s) := by
  unfold TrimSuffix
  by_cases h : HasSuffix s x = true
  · left
    have hs := (hasSuffix_iff _ _).mp h
    rw [if_pos h]
    refine ⟨?_, hs⟩
    obtain ⟨t, rfl⟩ := hs
    simp
  · right
    rw [if_neg h]
    exact ⟨rfl, fun hs => h ((hasSuffix_iff _ _).mpr hs)⟩

end strings

theorem slash_eq : slash = ['/'] := rfl

theorem apiV_eq : apiV = ['/', 'a', 'p', 'i', '/', 'v'] := rfl

theorem httpsScheme_eq : httpsScheme = ['h', 't', 't', 'p', 's', ':', '/', '/'] := rfl

theorem httpScheme_eq : httpScheme = ['h', 't', 't', 'p', ':', '/', '/'] := rfl

/-- A list that ends in `b` is no suffix of something ending in `a ≠ b`. -/
theorem not_suffix_concat_of_ne {a b : Char} (hab : b ≠ a) (u l : GoString) :
    ¬ (u ++ [b]) <:+ l ++ [a] := by
  intro h
  rcases List.suffix_concat_iff.mp h with h0 | ⟨t, ht, _⟩
  · simp at h0
  · have := congrArg List.getLast? ht
    simp only [List.getLast?_concat, Option.some.injEq] at this
    exact hab this

/-- A list that ends in `b` is no longer a prefix once `a ≠ b` is appended,
unless it was one before. -/
theorem prefix_concat_of_ne {a b : Char} (hab : b ≠ a) (u l : GoString) :
    (u ++ [b]) <+: l ++ [a] ↔ (u ++ [b]) <+: l := by
  rw [List.prefix_concat_iff]
  constructor
  · rintro (h | h)
    · have := congrArg List.getLast? h
      simp only [List.getLast?_concat, Option.some.injEq] at this
      exact absurd this hab
    · exact h
  · exact Or.inr

/-- Appending `a` creates no occurrence of a pattern ending in `b ≠ a`. -/
theorem infix_concat_of_ne {a b : Char} (hab : b ≠ a) (u l : GoString) :
    (u ++ [b]) <:+: l ++ [a] ↔ (u ++ [b]) <:+: l := by
  rw [List.infix_concat_iff]
  constructor
  · rintro (h | h)
    · exact absurd h (not_suffix_concat_of_ne hab u l)
    · exact h
  · exact Or.inr

theorem apiV_snoc : apiV = ['/', 'a', 'p', 'i', '/'] ++ ['v'] := rfl

theorem apiVTail_snoc : apiVTail = ['a', 'p', 'i', '/'] ++ ['v'] := rfl

theorem v_ne_slash : 'v' ≠ '/' := by decide

/-- Removing one trailing slash neither creates nor destroys an occurrence of
`"/api/v"`. -/
theorem apiV_infix_trim (e : GoString) :
    apiV <:+: strings.TrimSuffix e slash ↔ apiV <:+: e := by
  rcases strings.trimSuffix_cases e slash with ⟨h, _⟩ | ⟨h, _⟩
  · conv_rhs => rw [h]
    rw [slash_eq, apiV_snoc, infix_concat_of_ne v_ne_slash]
  · rw [h]

/-- The trimmed endpoint is a prefix of the endpoint. -/
theorem trim_prefix (e x : GoString) : strings.TrimSuffix e x <+: e := by
  rcases strings.trimSuffix_cases e x with ⟨h, _⟩ | ⟨h, _⟩
  · exact ⟨x, h.symm⟩
  · rw [h]

/-- The endpoint `NewClient` builds, in closed form. -/
theorem newClient_endpoint (e p tok : GoString) (v : Int) :
    (NewClient e p tok v).Endpoint =
      (if httpsScheme <+: strings.TrimSuffix e slash ∨ httpScheme <+: strings.TrimSuffix e slash
        then [] else httpsScheme)
      ++ strings.TrimSuffix e slash
      ++ (if apiV <:+: strings.TrimSuffix e slash then []
          else apiV ++ strconv.Itoa (if v < 1 then 1 else v)) := by
  unfold NewClient
  simp only [strings.Builder.zero, strings.Builder.WriteString, strings.Builder.String]
  by_cases h1 : httpsScheme <+: strings.TrimSuffix e slash <;>
  by_cases h2 : httpScheme <+: strings.TrimSuffix e slash <;>
  by_cases h3 : apiV <:+: strings.TrimSuffix e slash <;>
  simp [h1, h2, h3, (strings.hasPrefix_iff _ _).mpr, (strings.contains_iff _ _).mpr,
    (strings.hasPrefix_eq_false_iff _ _).mpr, (strings.contains_eq_false_iff _ _).mpr]

theorem digit_ne_slash (d : Nat) (hd : d < 10) : Char.ofNat (48 + d) ≠ '/' := by
  interval_cases d <;> decide

theorem formatNat_ne_slash (fuel n : Nat) : ∀ c ∈ strconv.formatNat fuel n, c ≠ '/' := by
  induction fuel generalizing n with
  | zero => intro c hc; simp [strconv.formatNat] at hc
  | succ k ih =>
    intro c hc
    unfold strconv.formatNat at hc
    split at hc
    · rename_i hlt
      rw [List.mem_singleton] at hc
      rw [hc]
      exact digit_ne_slash n hlt
    · rw [List.mem_append, List.mem_singleton] at hc
      rcases hc with hc | hc
      · exact ih _ c hc
      · rw [hc]
        exact digit_ne_slash _ (Nat.mod_lt _ (by decide))

/-- No character that `Itoa` prints is a slash. -/
theorem itoa_ne_slash (i : Int) : ∀ c ∈ strconv.Itoa i, c ≠ '/' := by
  intro c hc
  unfold strconv.Itoa at hc
  split at hc
  · rw [List.mem_cons] at hc
    rcases hc with hc | hc
    · rw [hc]; decide
    · exact formatNat_ne_slash _ _ c hc
  · exact formatNat_ne_slash _ _ c hc

theorem singleton_suffix_iff (a : Char) (l : GoString) :
    [a] <:+ l ↔ l.getLast? = some a := by
  rw [List.getLast?_eq_some_iff]
  constructor
  · rintro ⟨t, rfl⟩; exact ⟨t, rfl⟩
  · rintro ⟨t, rfl⟩; exact ⟨t, rfl⟩

theorem slash_suffix_iff (l : GoString) : slash <:+ l ↔ l.getLast? = some '/' :=
  singleton_suffix_iff '/' l

/-- The version segment `NewClient` appends never ends in a slash. -/
theorem version_segment_last (l : GoString) (i : Int) :
    (l ++ (apiV ++ strconv.Itoa i)).getLast? ≠ some '/' := by
  intro h
  have hm := itoa_ne_slash i
  rw [← List.append_assoc] at h
  rcases List.eq_nil_or_concat (strconv.Itoa i) with h0 | ⟨L, b, hb⟩
  · rw [h0, List.append_nil, apiV_snoc, ← List.append_assoc, List.getLast?_concat] at h
    exact absurd (Option.some.inj h) v_ne_slash
  · rw [List.concat_eq_append] at hb
    rw [hb, ← List.append_assoc, List.getLast?_concat] at h
    have hmem : b ∈ strconv.Itoa i := by rw [hb]; simp
    exact hm b hmem (Option.some.inj h)

theorem apiV_infix_ne_nil {t : GoString} (h : apiV <:+: t) : t ≠ [] := by
  rintro rfl
  have := h.length_le
  simp [apiV_eq] at this

/-- The trimmed endpoint still ends in a slash exactly when the endpoint ends
in two. -/
theorem slash_suffix_trim_iff (e : GoString) :
    slash <:+ strings.TrimSuffix e slash ↔ slashSlash <:+ e := by
  rcases strings.trimSuffix_cases e slash with ⟨h, _⟩ | ⟨h, hn⟩
  · conv_rhs => rw [h]
    have : slashSlash = slash ++ ['/'] := rfl
    rw [this, slash_eq, List.suffix_concat_iff]
    constructor
    · intro hs; exact Or.inr ⟨['/'], rfl, hs⟩
    · rintro (h0 | ⟨u, hu, hs⟩)
      · simp at h0
      · have : u = ['/'] := by
          have := List.append_inj_left' hu rfl
          exact this.symm
        rw [this] at hs; exact hs
  · rw [h]
    constructor
    · intro hs; exact absurd hs hn
    · intro hs
      have : slash <:+ slashSlash := ⟨['/'], rfl⟩
      exact this.trans hs

/-- The endpoint built by `NewClient` ends in a slash exactly when the input
holds `"/api/v"` and ends in two slashes. -/
theorem endpoint_slash_suffix_iff (e p tok : GoString) (v : Int) :
    slash <:+ (NewClient e p tok v).Endpoint ↔ apiV <:+: e ∧ slashSlash <:+ e := by
  rw [newClient_endpoint, ← apiV_infix_trim e, ← slash_suffix_trim_iff e]
  by_cases h3 : apiV <:+: strings.TrimSuffix e slash
  · simp only [h3, if_true, List.append_nil, true_and]
    have hne := apiV_infix_ne_nil h3
    rw [slash_suffix_iff, slash_suffix_iff, List.getLast?_append_of_ne_nil _ hne]
  · simp only [h3, if_false, false_and, iff_false]
    rw [slash_suffix_iff]
    have := version_segment_last
      ((if httpsScheme <+: strings.TrimSuffix e slash ∨ httpScheme <+: strings.TrimSuffix e slash
        then [] else httpsScheme) ++ strings.TrimSuffix e slash) (if v < 1 then 1 else v)
    exact this

/-- The endpoint built by `NewClient` starts with a scheme. -/
theorem endpoint_scheme (e p tok : GoString) (v : Int) :
    httpsScheme <+: (NewClient e p tok v).Endpoint ∨
      httpScheme <+: (NewClient e p tok v).Endpoint := by
  rw [newClient_endpoint]
  by_cases h : httpsScheme <+: strings.TrimSuffix e slash ∨ httpScheme <+: strings.TrimSuffix e slash
  · simp only [h, if_true, List.nil_append]
    rcases h with h | h
    · exact Or.inl (h.trans (List.prefix_append _ _))
    · exact Or.inr (h.trans (List.prefix_append _ _))
  · simp only [h, if_false]
    left
    rw [List.append_assoc]
    exact List.prefix_append _ _

/-- The endpoint built by `NewClient` holds the version marker. -/
theorem endpoint_apiV (e p tok : GoString) (v : Int) :
    apiV <:+: (NewClient e p tok v).Endpoint := by
  rw [newClient_endpoint]
  by_cases h3 : apiV <:+: strings.TrimSuffix e slash
  · simp only [h3, if_true, List.append_nil]
    exact h3.trans (List.suffix_append _ _).isInfix
  · simp only [h3, if_false]
    exact List.infix_append' _ _ _

/-- An endpoint that already has scheme and version marker, and no trailing
slash, is left as it is. -/
theorem newClient_fixed (E p tok : GoString) (w : Int)
    (hs : httpsScheme <+: E ∨ httpScheme <+: E) (ha : apiV <:+: E) (hn : ¬ slash <:+ E) :
    (NewClient E p tok w).Endpoint = E := by
  have ht : strings.TrimSuffix E slash = E := by
    rcases strings.trimSuffix_cases E slash with ⟨_, h⟩ | ⟨h, _⟩
    · exact absurd h hn
    · exact h
  rw [newClient_endpoint, ht]
  simp [hs, ha]

theorem hasPrefix_congr {s s' p : GoString} (h : p <+: s ↔ p <+: s') :
    strings.HasPrefix s p = strings.HasPrefix s' p := by
  rw [Bool.eq_iff_iff, strings.hasPrefix_iff, strings.hasPrefix_iff]
  exact h

/-- A position whose character is not a slash starts no occurrence. -/
theorem count_cons_of_ne (c : Char) (s : GoString) (hc : c ≠ '/') :
    countOccurrences apiV (c :: s) = countOccurrences apiV s := by
  have : strings.HasPrefix (c :: s) apiV = false := by
    rw [strings.hasPrefix_eq_false_iff, apiV_eq, List.cons_prefix_cons]
    exact fun h => hc h.1.symm
  simp [countOccurrences, this]

/-- A slash followed by a slash starts no occurrence. -/
theorem count_slash_slash (s : GoString) :
    countOccurrences apiV ('/' :: '/' :: s) = countOccurrences apiV ('/' :: s) := by
  have : strings.HasPrefix ('/' :: '/' :: s) apiV = false := by
    rw [strings.hasPrefix_eq_false_iff, apiV_eq, List.cons_prefix_cons, List.cons_prefix_cons]
    exact fun h => absurd h.2.1 (by decide)
  rw [countOccurrences, this]
  simp

/-- A slash starts an occurrence exactly when `"api/v"` follows. -/
theorem count_slash (s : GoString) :
    countOccurrences apiV ('/' :: s) =
      (if strings.HasPrefix s apiVTail then 1 else 0) + countOccurrences apiV s := by
  have : strings.HasPrefix ('/' :: s) apiV = strings.HasPrefix s apiVTail := by
    rw [Bool.eq_iff_iff, strings.hasPrefix_iff, strings.hasPrefix_iff]
    have : apiV = '/' :: apiVTail := rfl
    rw [this, List.cons_prefix_cons]
    simp
  rw [countOccurrences, this]

/-- Occurrences of `"/api/v"` after `"https://"` is put in front. -/
theorem count_httpsScheme_append (t : GoString) :
    countOccurrences apiV (httpsScheme ++ t) =
      countOccurrences apiV t + (if strings.HasPrefix t apiVTail then 1 else 0) := by
  have h : httpsScheme ++ t = 'h' :: 't' :: 't' :: 'p' :: 's' :: ':' :: '/' :: '/' :: t := rfl
  rw [h, count_cons_of_ne _ _ (by decide), count_cons_of_ne _ _ (by decide),
    count_cons_of_ne _ _ (by decide), count_cons_of_ne _ _ (by decide),
    count_cons_of_ne _ _ (by decide), count_cons_of_ne _ _ (by decide),
    count_slash_slash, count_slash, Nat.add_comm]

/-- A trailing slash starts no occurrence of `"/api/v"`. -/
theorem count_concat_slash (l : GoString) :
    countOccurrences apiV (l ++ ['/']) = countOccurrences apiV l := by
  induction l with
  | nil => decide
  | cons c cs ih =>
    have hp : strings.HasPrefix (c :: cs ++ ['/']) apiV = strings.HasPrefix (c :: cs) apiV := by
      apply hasPrefix_congr
      rw [apiV_snoc]
      exact prefix_concat_of_ne v_ne_slash _ (c :: cs)
    rw [List.cons_append, countOccurrences, countOccurrences, ih, ← List.cons_append, hp]

theorem count_trim (e : GoString) :
    countOccurrences apiV (strings.TrimSuffix e slash) = countOccurrences apiV e := by
  rcases strings.trimSuffix_cases e slash with ⟨h, _⟩ | ⟨h, _⟩
  · conv_rhs => rw [h]
    rw [slash_eq, count_concat_slash]
  · rw [h]

theorem apiVTail_prefix_trim (e : GoString) :
    strings.HasPrefix (strings.TrimSuffix e slash) apiVTail = strings.HasPrefix e apiVTail := by
  apply hasPrefix_congr
  rcases strings.trimSuffix_cases e slash with ⟨h, _⟩ | ⟨h, _⟩
  · conv_rhs => rw [h]
    rw [slash_eq, apiVTail_snoc, prefix_concat_of_ne v_ne_slash]
  · rw [h]

/-- A string that begins with `"api/v"` begins with no scheme. -/
theorem no_scheme_of_apiVTail {t : GoString} (h : apiVTail <+: t) :
    ¬ (httpsScheme <+: t ∨ httpScheme <+: t) := by
  obtain ⟨r, rfl⟩ := h
  have : apiVTail ++ r = 'a' :: ('p' :: 'i' :: '/' :: 'v' :: r) := rfl
  rw [this, httpsScheme_eq, httpScheme_eq]
  rintro (h | h)
  · exact absurd (List.cons_prefix_cons.mp h).1 (by decide)
  · exact absurd (List.cons_prefix_cons.mp h).1 (by decide)

/-- Occurrences of `"/api/v"` in the endpoint `NewClient` builds from an input
that already holds the marker. -/
theorem endpoint_count (e p tok : GoString) (v : Int) (h : apiV <:+: e) :
    countOccurrences apiV (NewClient e p tok v).Endpoint =
      countOccurrences apiV e + (if strings.HasPrefix e apiVTail then 1 else 0) := by
  have h3 := (apiV_infix_trim e).mpr h
  rw [newClient_endpoint, ← count_trim e, ← apiVTail_prefix_trim e]
  simp only [h3, if_true, List.append_nil]
  by_cases hs : httpsScheme <+: strings.TrimSuffix e slash ∨ httpScheme <+: strings.TrimSuffix e slash
  · have : strings.HasPrefix (strings.TrimSuffix e slash) apiVTail = false := by
      rw [strings.hasPrefix_eq_false_iff]
      exact fun ht => no_scheme_of_apiVTail ht hs
    simp [hs, this]
  · simp only [hs, if_false]
    exact count_httpsScheme_append _

theorem digitChar_eq (d : Nat) (hd : d < 10) : Nat.digitChar d = Char.ofNat (48 + d) := by
  interval_cases d <;> rfl

/-- The digit loop agrees with the standard decimal rendering of a natural
number whenever the fuel suffices. -/
theorem toDigitsCore_eq_formatNat (fuel n : Nat) (ds : List Char) (h : n < fuel) :
    Nat.toDigitsCore 10 fuel n ds = strconv.formatNat fuel n ++ ds := by
  induction fuel generalizing n ds with
  | zero => omega
  | succ k ih =>
    unfold Nat.toDigitsCore strconv.formatNat
    by_cases hn : n < 10
    · have h0 : n / 10 = 0 := by omega
      have hm : n % 10 = n := by omega
      simp [h0, hm, hn, digitChar_eq n hn]
    · have h0 : ¬ n / 10 = 0 := by omega
      have hk : n / 10 < k := by omega
      simp only [h0, hn, if_false]
      rw [ih _ _ hk, digitChar_eq _ (Nat.mod_lt _ (by decide))]
      simp

theorem formatNat_eq_toDigits (n : Nat) : strconv.formatNat (n + 1) n = Nat.toDigits 10 n := by
  unfold Nat.toDigits
  rw [toDigitsCore_eq_formatNat _ _ _ (Nat.lt_succ_self n), List.append_nil]

theorem itoa_clamp (v : Int) :
    strconv.Itoa (if v < 1 then 1 else v) = Nat.toDigits 10 (max v 1).toNat := by
  have hm : (if v < 1 then 1 else v) = max v 1 := by
    split
    · rw [max_eq_right]; omega
    · rw [max_eq_left]; omega
  rw [hm]
  unfold strconv.Itoa
  have : ¬ max v 1 < 0 := by
    have := le_max_right v 1
    omega
  rw [if_neg this, formatNat_eq_toDigits]

theorem trimSuffix_slash_eq (e : GoString) :
    strings.TrimSuffix e slash = if slash <:+ e then e.dropLast else e := by
  unfold strings.TrimSuffix
  by_cases h : slash <:+ e
  · rw [if_pos ((strings.hasSuffix_iff _ _).mpr h), if_pos h, List.dropLast_eq_take]
    rfl
  · rw [if_neg (fun hh => h ((strings.hasSuffix_iff _ _).mp hh)), if_neg h]

theorem newClient_endpoint_spec (e p tok : GoString) (v : Int) :
    (NewClient e p tok v).Endpoint = specEndpoint e v := by
  rw [newClient_endpoint, itoa_clamp, trimSuffix_slash_eq]
  rfl

theorem itoa_one : strconv.Itoa 1 = ['1'] := by decide

/-- With no scheme on the input, `https://` is put in front. -/
theorem endpoint_https_of_no_scheme (e p tok : GoString) (v : Int)
    (h1 : ¬ httpsScheme <+: e) (h2 : ¬ httpScheme <+: e) :
    httpsScheme <+: (NewClient e p tok v).Endpoint := by
  have ht := trim_prefix e slash
  have h : ¬ (httpsScheme <+: strings.TrimSuffix e slash ∨
      httpScheme <+: strings.TrimSuffix e slash) := by
    rintro (h | h)
    · exact h1 (h.trans ht)
    · exact h2 (h.trans ht)
  rw [newClient_endpoint]
  simp only [h, if_false]
  rw [List.append_assoc]
  exact List.prefix_append _ _

/-- With no version marker on the input and a version below one, the
endpoint ends in `"/api/v1"`. -/
theorem endpoint_apiV1_suffix (e p tok : GoString) (v : Int)
    (h : ¬ apiV <:+: e) (hv : v < 1) :
    apiV1 <:+ (NewClient e p tok v).Endpoint := by
  have h3 : ¬ apiV <:+: strings.TrimSuffix e slash := fun hh => h ((apiV_infix_trim e).mp hh)
  rw [newClient_endpoint]
  simp only [h3, hv, if_false, if_true, itoa_one]
  exact List.suffix_append _ _

/-- With the version marker on the input, nothing is appended. -/
theorem endpoint_of_apiV (e p tok : GoString) (v : Int) (h : apiV <:+: e) :
    (NewClient e p tok v).Endpoint =
      (if httpsScheme <+: strings.TrimSuffix e slash ∨ httpScheme <+: strings.TrimSuffix e slash
        then [] else httpsScheme) ++ strings.TrimSuffix e slash := by
  have h3 := (apiV_infix_trim e).mpr h
  rw [newClient_endpoint]
  simp only [h3, if_true, List.append_nil]

/-- Claim C1: for every endpoint, project, token and apiVersion, the Endpoint
`NewClient` returns is P ++ t ++ S as the specification words it (t the
endpoint with one trailing slash removed, P the scheme put in front when t has
none, S the version segment with the decimal form of max(apiVersion, 1)
appended when t holds no "/api/v"), and Project and Token are the arguments
unchanged. -/
theorem NewClient_refines_spec (e p tok : GoString) (v : Int) :
    (NewClient e p tok v).Endpoint = specEndpoint e v ∧
      (NewClient e p tok v).Project = p ∧ (NewClient e p tok v).Token = tok :=
  ⟨newClient_endpoint_spec e p tok v, rfl, rfl⟩

/-- Claim C2 fails as stated: the endpoint "host/api/v2" with apiVersion 0
yields "https://host/api/v2", which does not contain "/api/v1". -/
theorem NewClient_apiV1_counterexample :
    (0 : Int) < 1 ∧
      strings.Contains (NewClient "host/api/v2".toList [] [] 0).Endpoint apiV1 = false := by
  decide

/-- Claim C2, amended: for every endpoint that does not contain "/api/v" and
every apiVersion below 1, the Endpoint `NewClient` returns ends with, and so
contains, "/api/v1". -/
theorem NewClient_apiV1 (e p tok : GoString) (v : Int)
    (he : strings.Contains e apiV = false) (hv : v < 1) :
    strings.Contains (NewClient e p tok v).Endpoint apiV1 = true ∧
      strings.HasSuffix (NewClient e p tok v).Endpoint apiV1 = true := by
  have h := endpoint_apiV1_suffix e p tok v ((strings.contains_eq_false_iff _ _).mp he) hv
  exact ⟨(strings.contains_iff _ _).mpr h.isInfix, (strings.hasSuffix_iff _ _).mpr h⟩

/-- Witness for C2 amended: the endpoint "host/" with apiVersion 0. -/
theorem NewClient_apiV1_witness :
    strings.Contains (NewClient "host/".toList [] [] 0).Endpoint apiV1 = true ∧
      strings.HasSuffix (NewClient "host/".toList [] [] 0).Endpoint apiV1 = true :=
  NewClient_apiV1 "host/".toList [] [] 0 (by decide) (by decide)

/-- Claim C3 fails as stated: the endpoint "api/v/api/v" contains "/api/v"
once, and the Endpoint built from it, "https://api/v/api/v", contains it
twice. -/
theorem NewClient_occurrences_counterexample :
    strings.Contains "api/v/api/v".toList apiV = true ∧
      countOccurrences apiV "api/v/api/v".toList = 1 ∧
      countOccurrences apiV (NewClient "api/v/api/v".toList [] [] 1).Endpoint = 2 := by
  decide

/-- Claim C3, amended: for every endpoint that contains "/api/v" and every
apiVersion, the Endpoint is the endpoint with one trailing slash removed,
preceded by at most "https://"; it does not depend on apiVersion; and it
contains as many occurrences of "/api/v" as the input, plus one when the input
begins with "api/v". -/
theorem NewClient_no_second_version (e p tok : GoString) (v : Int)
    (he : strings.Contains e apiV = true) :
    ((NewClient e p tok v).Endpoint = strings.TrimSuffix e slash ∨
      (NewClient e p tok v).Endpoint = httpsScheme ++ strings.TrimSuffix e slash) ∧
    (∀ w : Int, (NewClient e p tok w).Endpoint = (NewClient e p tok v).Endpoint) ∧
    countOccurrences apiV (NewClient e p tok v).Endpoint =
      countOccurrences apiV e + (if strings.HasPrefix e apiVTail then 1 else 0) := by
  have ha := (strings.contains_iff _ _).mp he
  refine ⟨?_, ?_, endpoint_count e p tok v ha⟩
  · rw [endpoint_of_apiV e p tok v ha]
    by_cases hs : httpsScheme <+: strings.TrimSuffix e slash ∨
        httpScheme <+: strings.TrimSuffix e slash
    · left; simp [hs]
    · right; simp [hs]
  · intro w
    rw [endpoint_of_apiV e p tok v ha, endpoint_of_apiV e p tok w ha]

/-- Witness for C3 amended: the endpoint "api/v/api/v". -/
theorem NewClient_no_second_version_witness :
    countOccurrences apiV (NewClient "api/v/api/v".toList [] [] 7).Endpoint =
      countOccurrences apiV "api/v/api/v".toList +
        (if strings.HasPrefix "api/v/api/v".toList apiVTail then 1 else 0) :=
  (NewClient_no_second_version "api/v/api/v".toList [] [] 7 (by decide)).2.2

/-- Claim C4 fails as stated: the endpoint "host/api/v1//" yields
"https://host/api/v1/", which ends with a slash. -/
theorem NewClient_trailing_slash_counterexample :
    (NewClient "host/api/v1//".toList [] [] 1).Endpoint = "https://host/api/v1/".toList ∧
      strings.HasSuffix (NewClient "host/api/v1//".toList [] [] 1).Endpoint slash = true := by
  decide

/-- Claim C4, amended: the Endpoint `NewClient` returns ends with a slash
exactly when the input endpoint contains "/api/v" and ends with "//"; for
every other endpoint and every apiVersion it never ends with a slash. -/
theorem NewClient_trailing_slash_iff (e p tok : GoString) (v : Int) :
    strings.HasSuffix (NewClient e p tok v).Endpoint slash = true ↔
      (strings.Contains e apiV = true ∧ strings.HasSuffix e slashSlash = true) := by
  rw [strings.hasSuffix_iff, strings.contains_iff, strings.hasSuffix_iff]
  exact endpoint_slash_suffix_iff e p tok v

/-- Claim C5: the Endpoint `NewClient` returns begins with "https://" or
"http://" and contains "/api/v"; and when the input endpoint begins with
neither scheme, the Endpoint begins with "https://". -/
theorem NewClient_scheme_and_version (e p tok : GoString) (v : Int) :
    (strings.HasPrefix (NewClient e p tok v).Endpoint httpsScheme = true ∨
      strings.HasPrefix (NewClient e p tok v).Endpoint httpScheme = true) ∧
    strings.Contains (NewClient e p tok v).Endpoint apiV = true ∧
    (strings.HasPrefix e httpsScheme = false → strings.HasPrefix e httpScheme = false →
      strings.HasPrefix (NewClient e p tok v).Endpoint httpsScheme = true) := by
  refine ⟨?_, ?_, ?_⟩
  · rw [strings.hasPrefix_iff, strings.hasPrefix_iff]
    exact endpoint_scheme e p tok v
  · rw [strings.contains_iff]
    exact endpoint_apiV e p tok v
  · intro h1 h2
    rw [strings.hasPrefix_iff]
    exact endpoint_https_of_no_scheme e p tok v
      ((strings.hasPrefix_eq_false_iff _ _).mp h1) ((strings.hasPrefix_eq_false_iff _ _).mp h2)

/-- Witness for C5: the schemeless endpoint "host". -/
theorem NewClient_scheme_and_version_witness :
    strings.HasPrefix (NewClient "host".toList [] [] 3).Endpoint httpsScheme = true :=
  (NewClient_scheme_and_version "host".toList [] [] 3).2.2 (by decide) (by decide)

/-- Claim C10: for every endpoint that does not end with "//" and all
apiVersions v and w, the Endpoint built with v does not end with a slash, and
building again from that Endpoint with w gives the same Endpoint. -/
theorem NewClient_idempotent (e p tok p' tok' : GoString) (v w : Int)
    (he : strings.HasSuffix e slashSlash = false) :
    strings.HasSuffix (NewClient e p tok v).Endpoint slash = false ∧
      (NewClient (NewClient e p tok v).Endpoint p' tok' w).Endpoint =
        (NewClient e p tok v).Endpoint := by
  have hn : ¬ slash <:+ (NewClient e p tok v).Endpoint := by
    rw [endpoint_slash_suffix_iff]
    exact fun h => (strings.hasSuffix_eq_false_iff _ _).mp he h.2
  exact ⟨(strings.hasSuffix_eq_false_iff _ _).mpr hn,
    newClient_fixed _ p' tok' w (endpoint_scheme e p tok v) (endpoint_apiV e p tok v) hn⟩

/-- Witness for C10: the endpoint "host/", built with 2 and rebuilt with 5. -/
theorem NewClient_idempotent_witness :
    strings.HasSuffix (NewClient "host/".toList [] [] 2).Endpoint slash = false ∧
      (NewClient (NewClient "host/".toList [] [] 2).Endpoint [] [] 5).Endpoint =
        (NewClient "host/".toList [] [] 2).Endpoint :=
  NewClient_idempotent "host/".toList [] [] [] [] 2 5 (by decide)

/-- A nil response stops `CheckConnect` at the `defer` statement, whatever
error came with it. -/
theorem checkConnect_nil_response (T : Transport) (c : Client) (u : GoString)
    (err : Option GoError)
    (hreq : T.parseURL (c.Endpoint ++ "/user".toList) = .ok u)
    (hdo : T.doRequest { Method := http.MethodGet, URL := u, Header := [], Body := none }
      c.Token = (none, err)) :
    c.CheckConnect T = .nilDereference := by
  unfold Client.CheckConnect http.NewRequest
  simp only [hreq, hdo]

/-- Claim C6: when the request is built and the transport helper returns a
response and no error, `CheckConnect` returns no error exactly when the status
code is 200, and for every other code it returns an error whose text is
"failed with status " followed by the status text of the response. -/
theorem CheckConnect_status (T : Transport) (c : Client) (u : GoString)
    (resp : http.Response)
    (hreq : T.parseURL (c.Endpoint ++ "/user".toList) = .ok u)
    (hdo : T.doRequest { Method := http.MethodGet, URL := u, Header := [], Body := none }
      c.Token = (some resp, none)) :
    (c.CheckConnect T = .returned none ↔ resp.StatusCode = 200) ∧
    (resp.StatusCode ≠ 200 →
      ∃ err, c.CheckConnect T = .returned (some err) ∧
        err.Error = "failed with status ".toList ++ resp.Status) := by
  unfold Client.CheckConnect http.NewRequest
  simp only [hreq, hdo, http.StatusOK]
  by_cases h : resp.StatusCode = 200
  · simp [h]
  · simp [h, GoError.Error]

/-- Witness for C6: a server answering `500 Internal Server Error`. -/
theorem CheckConnect_status_witness :
    ∃ err, (NewClient "host".toList [] [] 1).CheckConnect
        (Transport.answering ⟨"500 Internal Server Error".toList, 500, none⟩)
          = .returned (some err) ∧
      err.Error = "failed with status 500 Internal Server Error".toList :=
  (CheckConnect_status (Transport.answering ⟨"500 Internal Server Error".toList, 500, none⟩)
    (NewClient "host".toList [] [] 1) _ _ rfl rfl).2 (by decide)

/-- Claim C7, at the failing input: with the request built and the transport
helper returning a transport error and no response, `CheckConnect` does not
return the wrapped error: it is stopped by a nil pointer dereference at the
`defer` statement, before the error check. -/
theorem CheckConnect_transport_failure_faults :
    (NewClient "localhost:1".toList "p".toList "t".toList 1).CheckConnect
      (Transport.unreachable (.errorf "connection refused".toList)) = .nilDereference := by
  decide

/-- Claim C8: when the request of a lifecycle operation is built and
completes with a response, the operation returns no error exactly when the
status code is the accepted one (201 for Start, 200 for Update, Stop, Finish
and Delete), and for every other code it returns, with the launch unchanged,
an error whose text is "failed with status " followed by the status line. -/
theorem Launch_run_status (T : Transport) (now : Int) (op : LaunchOp) (l : Launch)
    (u : GoString) (resp : http.Response)
    (hreq : T.parseURL (l.client.Endpoint ++ op.path l) = .ok u)
    (hdo : T.doRequest
      { Method := op.method, URL := u,
        Header := [("Content-Type".toList, "application/json".toList)],
        Body := op.body l now } l.client.Token = (some resp, none)) :
    ((∃ l', l.run T now op = .returned (l', none)) ↔
      resp.StatusCode = (match op with | .Start => 201 | _ => 200)) ∧
    (resp.StatusCode ≠ (match op with | .Start => 201 | _ => 200) →
      ∃ err, l.run T now op = .returned (l, some err) ∧
        err.Error = "failed with status ".toList ++ resp.Status) := by
  have hacc : op.accepted = (match op with | .Start => 201 | _ => 200) := by
    cases op <;> rfl
  rw [← hacc]
  unfold Launch.run http.NewRequest
  simp only [hreq, hdo]
  by_cases h : resp.StatusCode = op.accepted
  · simp [h]
  · simp [h, GoError.Error]

/-- Witness for C8: `Start` answered with `200 OK` fails with the text
"failed with status 200 OK". -/
theorem Launch_run_status_witness :
    ∃ err, (Launch.blank (NewClient "host".toList [] [] 1)).run
        (Transport.answering ⟨"200 OK".toList, 200, none⟩) 0 .Start
          = .returned (Launch.blank (NewClient "host".toList [] [] 1), some err) ∧
      err.Error = "failed with status 200 OK".toList :=
  (Launch_run_status (Transport.answering ⟨"200 OK".toList, 200, none⟩) 0 .Start
    (Launch.blank (NewClient "host".toList [] [] 1)) _ _ rfl rfl).2 (by decide)

/-- Claim C9: when the Start request (POST to the endpoint followed by
"/" ++ project ++ "/launch", with header Content-Type: application/json) is
answered with status 201 and a JSON body whose field "id" is the string x,
Start returns no error and the launch's Id afterwards is x. -/
theorem Launch_start_id (T : Transport) (now : Int) (l : Launch) (u x : GoString)
    (resp : http.Response) (o : JsonObject)
    (hreq : T.parseURL
      (l.client.Endpoint ++ ("/".toList ++ l.client.Project ++ "/launch".toList)) = .ok u)
    (hdo : T.doRequest
      { Method := "POST".toList, URL := u,
        Header := [("Content-Type".toList, "application/json".toList)],
        Body := LaunchOp.body l now .Start } l.client.Token = (some resp, none))
    (hcode : resp.StatusCode = 201) (hbody : resp.Body = some o)
    (hid : o.field "id".toList = some (.str x)) :
    ∃ l', l.run T now .Start = .returned (l', none) ∧ l'.Id = x := by
  unfold Launch.run http.NewRequest
  have hp : LaunchOp.path l .Start = "/".toList ++ l.client.Project ++ "/launch".toList := rfl
  have hm : LaunchOp.method .Start = "POST".toList := rfl
  simp only [hp, hm, hreq, hdo, hcode, LaunchOp.accepted, http.StatusCreated, LaunchOp.effect,
    hbody, Option.bind, hid]
  simp

/-- Witness for C9: the server of `TestStartLaunch/Correctly created`. -/
theorem Launch_start_id_witness :
    ∃ l', (Launch.blank ⟨"http://127.0.0.1:8080".toList, [], "test_project".toList⟩).run
        (Transport.startServer "http://127.0.0.1:8080".toList) 0 .Start
          = .returned (l', none) ∧ l'.Id = "testid".toList :=
  Launch_start_id (Transport.startServer "http://127.0.0.1:8080".toList) 0
    (Launch.blank ⟨"http://127.0.0.1:8080".toList, [], "test_project".toList⟩)
    _ "testid".toList
    { Status := "201 Created".toList, StatusCode := 201,
      Body := some [("id".toList, .str "testid".toList)] }
    [("id".toList, .str "testid".toList)] rfl (by decide) rfl rfl (by decide)

end rp
